import Mathlib

/-!
Verification of `video_frame_provider.py` (skunkworxdark/load_video_frame).

The file contains five InvokeAI plugin nodes:
 * `LoadVideoFrameInvocation.invoke` - open a video, seek to `frame_number - 1`,
   read one frame, release, return the decoded image (raising on failure);
 * `ImageIndexCollectInvocation.invoke` - `json.dumps([index, image_name])`;
 * `ImagesIndexToVideoInvocation.invoke` - parse each record with `json.loads`,
   sort by `x[0]` with Python's stable `sorted`, resolve the first image, open a
   `cv2.VideoWriter`, write every resolved frame in sorted order, release;
 * `GetTotalFramesInvocation.invoke` / `GetSourceFrameRateInvocation.invoke` -
   open a capture and return `int(get(CAP_PROP_FRAME_COUNT))` resp.
   `float(get(CAP_PROP_FPS))` without checking `isOpened()`;
 * `ImageToImageNameInvocation.invoke` - project `image.image_name`.

The embedding below models the Python `json` library at the character level
(`loads` parses, `imageIndexCollect` reproduces the exact `json.dumps` output
including the default `", "` separator and `ensure_ascii` escaping), Python's
`sorted` as the canonical stable sort (insertion sort), and the OpenCV handles
as explicit traces recording acquisition and release.
-/

namespace VideoFrameProvider

/-! ## JSON values

`JVal` is the shape of Python values produced by `json.loads`: `null`, booleans,
integers (Python parses an integer literal to an arbitrary-precision `int`),
non-integer numbers (`jdec m e` stands for the decimal value `m * 10 ^ e`;
CPython parses these to binary floats, whose rounding is not observable in any
behaviour treated here), strings, arrays and objects. -/

inductive JVal where
  | jnull
  | jbool (b : Bool)
  | jint (n : Int)
  | jdec (m : Int) (e : Int)
  | jstr (s : String)
  | jarr (elems : List JVal)
  | jobj (members : List (String × JVal))

/-! ## Serialization: the characters produced by `json.dumps`

`ImageIndexCollectInvocation.invoke` returns `json.dumps([self.index,
self.image.image_name])`. With CPython's defaults this is
`"[" + repr(index) + ", " + encoded_string + "]"` where the string is quoted
and escaped with `ensure_ascii=True`. -/

def digitChar (d : Nat) : Char := Char.ofNat (48 + d)

/-- Decimal digits of `n`, least significant first. The fuel argument is only
there to make the recursion structural; `fuel > n` always suffices. -/
def natRevCharsAux : Nat → Nat → List Char
  | 0, _ => []
  | fuel + 1, n => if n < 10 then [digitChar n] else digitChar (n % 10) :: natRevCharsAux fuel (n / 10)

def natChars (n : Nat) : List Char := (natRevCharsAux (n + 1) n).reverse

/-- The characters of Python's `repr` of an integer. -/
def intChars (i : Int) : List Char :=
  if i < 0 then '-' :: natChars i.natAbs else natChars i.natAbs

def hexDigitChar (d : Nat) : Char := Char.ofNat (if d < 10 then 48 + d else 87 + d)

/-- Four lowercase hex digits, as produced by CPython's `\uXXXX` escapes. -/
def hex4 (n : Nat) : List Char :=
  [hexDigitChar (n / 4096 % 16), hexDigitChar (n / 256 % 16), hexDigitChar (n / 16 % 16),
    hexDigitChar (n % 16)]

/-- The escape of a single character performed by `json.dumps` with its default
`ensure_ascii=True`: `"` and `\` get a backslash, the five named control
characters use their short forms, other control characters and every
non-ASCII character become `\uXXXX` (a surrogate pair for code points above
`0xFFFF`). -/
def escapeChar (c : Char) : List Char :=
  if c = '"' then ['\\', '"']
  else if c = '\\' then ['\\', '\\']
  else if c.toNat = 10 then ['\\', 'n']
  else if c.toNat = 13 then ['\\', 'r']
  else if c.toNat = 9 then ['\\', 't']
  else if c.toNat = 8 then ['\\', 'b']
  else if c.toNat = 12 then ['\\', 'f']
  else if c.toNat < 32 then '\\' :: 'u' :: hex4 c.toNat
  else if c.toNat < 127 then [c]
  else if c.toNat < 65536 then '\\' :: 'u' :: hex4 c.toNat
  else
    '\\' :: 'u' :: hex4 (55296 + (c.toNat - 65536) / 1024) ++
      '\\' :: 'u' :: hex4 (56320 + (c.toNat - 65536) % 1024)

def escapeString (s : String) : List Char := s.data.flatMap escapeChar

/-- `ImageIndexCollectInvocation.invoke`:
`json.dumps([self.index, self.image.image_name])`. -/
def imageIndexCollect (index : Int) (imageName : String) : String :=
  ⟨'[' :: (intChars index ++ ',' :: ' ' :: '"' :: (escapeString imageName ++ '"' :: ']' :: []))⟩

/-- `ImageToImageNameInvocation.invoke`: returns `self.image.image_name`. -/
def imageToImageName (imageName : String) : String := imageName

/-! ## Parsing: `json.loads`

A character-level model of `json.loads` (strict JSON; the CPython extensions
`NaN`/`Infinity` and lone surrogate escapes, which cannot occur in any record
produced by this plugin and are outside the spec's wire format, are not
modelled). Array/object nesting is handled with a fuel argument so that every
definition is structurally recursive; `loads` supplies fuel larger than the
input length, which always suffices since every nesting step consumes at least
one character. -/

def isWsChar (c : Char) : Bool :=
  decide (c = ' ') || decide (c = '\t') || decide (c = '\n') || decide (c = '\r')

def skipWs : List Char → List Char
  | [] => []
  | c :: cs => if isWsChar c then skipWs cs else c :: cs

def isDigitChar (c : Char) : Bool := decide (48 ≤ c.toNat) && decide (c.toNat ≤ 57)

/-- Longest digit run at the front of the input, and the remainder. -/
def takeDigits : List Char → List Char × List Char
  | [] => ([], [])
  | c :: cs =>
    if isDigitChar c then
      let p := takeDigits cs
      (c :: p.1, p.2)
    else ([], c :: cs)

def digitsVal (ds : List Char) : Nat := ds.foldl (fun a c => a * 10 + (c.toNat - 48)) 0

def applySign (neg : Bool) (n : Nat) : Int := if neg then -(n : Int) else (n : Int)

def hexDigitVal (c : Char) : Option Nat :=
  if 48 ≤ c.toNat ∧ c.toNat ≤ 57 then some (c.toNat - 48)
  else if 97 ≤ c.toNat ∧ c.toNat ≤ 102 then some (c.toNat - 87)
  else if 65 ≤ c.toNat ∧ c.toNat ≤ 70 then some (c.toNat - 55)
  else none

def hex4Val (a b c d : Char) : Option Nat := do
  let va ← hexDigitVal a
  let vb ← hexDigitVal b
  let vc ← hexDigitVal c
  let vd ← hexDigitVal d
  pure (va * 4096 + vb * 256 + vc * 16 + vd)

/-- The single-character JSON escapes. -/
def unescapeSimple (e : Char) : Option Char :=
  if e = '"' then some '"'
  else if e = '\\' then some '\\'
  else if e = '/' then some '/'
  else if e = 'b' then some (Char.ofNat 8)
  else if e = 'f' then some (Char.ofNat 12)
  else if e = 'n' then some '\n'
  else if e = 'r' then some '\r'
  else if e = 't' then some '\t'
  else none

/-- Decode a `\uXXXX` escape (input starts at the first hex digit), returning
the decoded character and the rest of the input. An escape in the
high-surrogate range must be followed by a low-surrogate escape; the pair
decodes to one code point. -/
def parseUEscape : List Char → Option (Char × List Char)
  | a :: b :: c :: d :: rest3 =>
    match hex4Val a b c d with
    | none => none
    | some v =>
      if 55296 ≤ v ∧ v ≤ 56319 then
        match rest3 with
        | e1 :: e2 :: a2 :: b2 :: c3 :: d2 :: rest4 =>
          if e1 = '\\' ∧ e2 = 'u' then
            match hex4Val a2 b2 c3 d2 with
            | none => none
            | some w =>
              if 56320 ≤ w ∧ w ≤ 57343 then
                some (Char.ofNat (65536 + (v - 55296) * 1024 + (w - 56320)), rest4)
              else none
          else none
        | _ => none
      else if 56320 ≤ v ∧ v ≤ 57343 then none
      else some (Char.ofNat v, rest3)
  | _ => none

/-- Body of a JSON string (the opening quote already consumed): returns the
decoded characters and the input after the closing quote. Unescaped control
characters are rejected, as in `json.loads` strict mode. The fuel argument
makes the recursion structural; since every step consumes at least one input
character, any `fuel` larger than the input length suffices. -/
def parseJStrBody : Nat → List Char → Option (List Char × List Char)
  | 0, _ => none
  | fuel + 1, l =>
    match l with
    | [] => none
    | c :: rest =>
      if c = '"' then some ([], rest)
      else if c = '\\' then
        match rest with
        | [] => none
        | e :: rest2 =>
          if e = 'u' then
            match parseUEscape rest2 with
            | some (uc, rest3) => (parseJStrBody fuel rest3).map fun p => (uc :: p.1, p.2)
            | none => none
          else
            match unescapeSimple e with
            | some ec => (parseJStrBody fuel rest2).map fun p => (ec :: p.1, p.2)
            | none => none
      else if c.toNat < 32 then none
      else (parseJStrBody fuel rest).map fun p => (c :: p.1, p.2)

/-- Parse the exponent of a JSON number (after `e`/`E`). -/
def parseExpPart (l : List Char) : Option (Int × List Char) :=
  match l with
  | [] => none
  | c :: rest =>
    if c = '+' then
      let p := takeDigits rest
      if p.1 = [] then none else some ((digitsVal p.1 : Int), p.2)
    else if c = '-' then
      let p := takeDigits rest
      if p.1 = [] then none else some (-(digitsVal p.1 : Int), p.2)
    else
      let p := takeDigits (c :: rest)
      if p.1 = [] then none else some ((digitsVal p.1 : Int), p.2)

/-- Continuation of a number after the integer part: an optional fraction and
an optional exponent. A plain integer literal parses to `jint` (a Python
`int`); a literal with `.` or an exponent parses to `jdec` (a Python float). -/
def parseNumTail (neg : Bool) (ip : Nat) (l : List Char) : Option (JVal × List Char) :=
  match l with
  | [] => some (.jint (applySign neg ip), [])
  | c :: rest =>
    if c = '.' then
      let p := takeDigits rest
      if p.1 = [] then none
      else
        let m := applySign neg (ip * 10 ^ p.1.length + digitsVal p.1)
        match p.2 with
        | [] => some (.jdec m (-(p.1.length : Int)), [])
        | c2 :: rest2 =>
          if c2 = 'e' ∨ c2 = 'E' then
            match parseExpPart rest2 with
            | some (ex, r) => some (.jdec m (ex - (p.1.length : Int)), r)
            | none => none
          else some (.jdec m (-(p.1.length : Int)), c2 :: rest2)
    else if c = 'e' ∨ c = 'E' then
      match parseExpPart rest with
      | some (ex, r) => some (.jdec (applySign neg ip) ex, r)
      | none => none
    else some (.jint (applySign neg ip), c :: rest)

/-- Integer part of a JSON number (sign already consumed): a nonempty digit
run without a redundant leading zero. -/
def parseNumAfterSign (neg : Bool) (l : List Char) : Option (JVal × List Char) :=
  let p := takeDigits l
  if p.1 = [] then none
  else if p.1.head? = some '0' ∧ p.1.length ≠ 1 then none
  else parseNumTail neg (digitsVal p.1) p.2

def parseNumber (l : List Char) : Option (JVal × List Char) :=
  match l with
  | [] => none
  | c :: rest => if c = '-' then parseNumAfterSign true rest else parseNumAfterSign false (c :: rest)

/-- The tail of the literal `true`. -/
def parseTrueTail : List Char → Option (JVal × List Char)
  | 'r' :: 'u' :: 'e' :: r => some (.jbool true, r)
  | _ => none

/-- The tail of the literal `false`. -/
def parseFalseTail : List Char → Option (JVal × List Char)
  | 'a' :: 'l' :: 's' :: 'e' :: r => some (.jbool false, r)
  | _ => none

/-- The tail of the literal `null`. -/
def parseNullTail : List Char → Option (JVal × List Char)
  | 'u' :: 'l' :: 'l' :: r => some (.jnull, r)
  | _ => none

mutual

/-- Parse one JSON value (leading whitespace allowed), returning it and the
rest of the input. -/
def parseVal : Nat → List Char → Option (JVal × List Char)
  | 0, _ => none
  | fuel + 1, l =>
    match skipWs l with
    | [] => none
    | c :: rest =>
      if c = '"' then (parseJStrBody (rest.length + 1) rest).map fun p => (JVal.jstr ⟨p.1⟩, p.2)
      else if c = '[' then
        let l2 := skipWs rest
        if l2.head? = some ']' then some (.jarr [], l2.tail)
        else
          match parseVal fuel l2 with
          | some (v, r1) => parseArrRest fuel [v] r1
          | none => none
      else if c = '{' then
        let l2 := skipWs rest
        if l2.head? = some '}' then some (.jobj [], l2.tail)
        else parseObjRest fuel [] l2
      else if c = 't' then parseTrueTail rest
      else if c = 'f' then parseFalseTail rest
      else if c = 'n' then parseNullTail rest
      else parseNumber (c :: rest)

/-- Remaining elements of a nonempty array: `, value`* followed by `]`. -/
def parseArrRest : Nat → List JVal → List Char → Option (JVal × List Char)
  | 0, _, _ => none
  | fuel + 1, acc, l =>
    match skipWs l with
    | [] => none
    | c :: rest =>
      if c = ',' then
        match parseVal fuel rest with
        | some (v, r1) => parseArrRest fuel (acc ++ [v]) r1
        | none => none
      else if c = ']' then some (.jarr acc, rest)
      else none

/-- Members of a nonempty object: `"key" : value` separated by `,`, closed by
`}`. -/
def parseObjRest : Nat → List (String × JVal) → List Char → Option (JVal × List Char)
  | 0, _, _ => none
  | fuel + 1, acc, l =>
    match skipWs l with
    | [] => none
    | c :: rest =>
      if c = '"' then
        match parseJStrBody (rest.length + 1) rest with
        | none => none
        | some (k, r1) =>
          match skipWs r1 with
          | [] => none
          | c2 :: r2 =>
            if c2 = ':' then
              match parseVal fuel r2 with
              | none => none
              | some (v, r3) =>
                match skipWs r3 with
                | [] => none
                | c3 :: r4 =>
                  if c3 = ',' then parseObjRest fuel (acc ++ [(⟨k⟩, v)]) r4
                  else if c3 = '}' then some (.jobj (acc ++ [(⟨k⟩, v)]), r4)
                  else none
            else none
      else none

end

/-- `json.loads`: parse one value and require only whitespace after it. -/
def loads (s : String) : Option JVal :=
  match parseVal (s.data.length + 1) s.data with
  | some (v, rest) => if skipWs rest = [] then some v else none
  | none => none

/-! ## Python's `sorted(..., key=lambda x: x[0])`

`ImagesIndexToVideoInvocation.invoke` evaluates
`sorted([json.loads(s) for s in collection], key=lambda x: x[0])`.
The key `x[0]` subscripts the parsed value; during the sort Python compares
keys with `<`, raising `TypeError` on incomparable kinds. `sorted` is a stable
sort, represented here by the canonical stable sort (insertion sort). -/

/-- Python `x[0]` on a `json.loads` result: first element of a list, first
character of a string; everything else raises (`TypeError`, `KeyError` or
`IndexError`), modelled as `none`. -/
def keyOf : JVal → Option JVal
  | .jarr (x :: _) => some x
  | .jstr s =>
    match s.data with
    | c :: _ => some (.jstr ⟨[c]⟩)
    | [] => none
  | _ => none

/-- A JSON value as an exact decimal `(mantissa, exponent)` when Python treats
it as a number for comparisons (ints, floats, and bools, with `True == 1`). -/
def numVal : JVal → Option (Int × Int)
  | .jint n => some (n, 0)
  | .jdec m e => some (m, e)
  | .jbool b => some (if b then 1 else 0, 0)
  | _ => none

/-- `m₁·10^e₁ < m₂·10^e₂`, decided by aligning the exponents. -/
def decNumLt (x y : Int × Int) : Bool :=
  if x.2 ≤ y.2 then decide (x.1 < y.1 * 10 ^ (y.2 - x.2).toNat)
  else decide (x.1 * 10 ^ (x.2 - y.2).toNat < y.1)

/-- String comparison, and `TypeError` (`none`) for every other non-numeric
pair of keys. -/
def pyLtStr : JVal → JVal → Option Bool
  | .jstr s, .jstr t => some (decide (s < t))
  | _, _ => none

/-- Python `<` on sort keys; `none` models a `TypeError`. Numbers and booleans
compare numerically, strings lexicographically by code point. (Python also
compares lists elementwise; list-valued keys do not occur in any behaviour
treated here and are conservatively mapped to `none`.) -/
def pyLt (a b : JVal) : Option Bool :=
  match numVal a, numVal b with
  | some x, some y => some (decNumLt x y)
  | _, _ => pyLtStr a b

/-- The ordering a stable sort realises from Python's `<`: `v` may stay before
`w` iff `not (key w < key v)`. (The `getD` defaults are irrelevant: the sort is
only reached when every key extraction and comparison succeeds.) -/
def keyLe (v w : JVal) : Bool :=
  !(pyLt ((keyOf w).getD .jnull) ((keyOf v).getD .jnull)).getD false

/-- All pairs of keys comparable: otherwise the sort raises `TypeError`. -/
def pairsComparable : List JVal → Bool
  | [] => true
  | k :: ks => ks.all (fun j => (pyLt k j).isSome) && pairsComparable ks

/-- `sorted([...], key=lambda x: x[0])`: extract every key (`x[0]` may raise),
require the keys to be comparable (else the sort raises), and stable-sort.
`none` models an exception. -/
def sortedRecords (vals : List JVal) : Option (List JVal) :=
  match vals.mapM keyOf with
  | none => none
  | some ks =>
    if pairsComparable ks then
      some (List.insertionSort (fun v w => keyLe v w = true) vals)
    else none

/-! ## The video-file operations

`cv2.VideoCapture(path)` either opens the file or not; an opened capture is a
`Video` (its decodable frames, identified by name, and its container-reported
metadata, which `cv2` returns as doubles). An unopened capture is `none`:
`get(...)` then returns `0.0`. Each operation returns its result together with
a `CapTrace` recording whether the handle was acquired and released. -/

structure Video where
  frames : List String
  frameCountMeta : ℚ
  fpsMeta : ℚ

structure CapTrace where
  opened : Bool
  released : Bool

inductive VErr where
  | sourceOpen
  | frameRead

/-- `LoadVideoFrameInvocation.invoke`: open the capture (release and raise
`ValueError` if it did not open), `set(CAP_PROP_POS_FRAMES, frame_number - 1)`,
`read()`, release, raise if the read failed, else return the decoded frame. -/
def loadVideoFrame (vid : Option Video) (frameNumber : Nat) : Except VErr String × CapTrace :=
  match vid with
  | none => (.error .sourceOpen, ⟨false, true⟩)
  | some v =>
    match v.frames[frameNumber - 1]? with
    | some f => (.ok f, ⟨true, true⟩)
    | none => (.error .frameRead, ⟨true, true⟩)

/-- `GetTotalFramesInvocation.invoke`: open the capture, return
`int(get(CAP_PROP_FRAME_COUNT))` (truncation toward zero), release. There is
no `isOpened()` check: an unopened capture yields `int(0.0) = 0`. -/
def getTotalFrames (vid : Option Video) : Except VErr Int × CapTrace :=
  match vid with
  | none => (.ok 0, ⟨false, true⟩)
  | some v => (.ok (v.frameCountMeta.num / (v.frameCountMeta.den : Int)), ⟨true, true⟩)

/-- `GetSourceFrameRateInvocation.invoke`: open the capture, return
`float(get(CAP_PROP_FPS))`, release. There is no `isOpened()` check: an
unopened capture yields `0.0`. -/
def getSourceFrameRate (vid : Option Video) : Except VErr ℚ × CapTrace :=
  match vid with
  | none => (.ok 0, ⟨false, true⟩)
  | some v => (.ok v.fpsMeta, ⟨true, true⟩)

/-! ## `ImagesIndexToVideoInvocation.invoke` -/

/-- The Python exceptions the node can raise. -/
inductive PyErr where
  | jsonDecode
  | sortError
  | indexEmpty
  | itemIndex
  | imageNotFound
  | writerOpen

/-- Everything observable about one invocation: whether the
`cv2.VideoWriter` was constructed (this is what creates/overwrites the file
at `video_out_path`), whether it was released, the image names written (in
order), and the exception if one was raised. -/
structure AssembleTrace where
  writerCreated : Bool
  writerReleased : Bool
  framesWritten : List String
  error : Option PyErr

/-- Python `item[1]` on a `json.loads` result. -/
def pyItem1 : JVal → Option JVal
  | .jarr (_ :: x :: _) => some x
  | .jstr s =>
    match s.data with
    | _ :: c :: _ => some (.jstr ⟨[c]⟩)
    | _ => none
  | _ => none

/-- `context.images.get_pil(name)`: the host's image store resolves a string
name to an image (identified here by its name); any other argument, or an
unknown name, raises. -/
def getPil (resolver : String → Bool) : JVal → Option String
  | .jstr s => if resolver s then some s else none
  | _ => none

/-- The write loop: for each sorted item resolve `item[1]` and append the
frame; a failure raises out of the loop, with the frames written so far. -/
def writeFrames (resolver : String → Bool) : List JVal → List String → List String × Option PyErr
  | [], acc => (acc.reverse, none)
  | item :: rest, acc =>
    match pyItem1 item with
    | none => (acc.reverse, some .itemIndex)
    | some ref =>
      match getPil resolver ref with
      | none => (acc.reverse, some .imageNotFound)
      | some name => writeFrames resolver rest (name :: acc)

/-- The part of `invoke` from `new_array[0][1]` on: resolve the first sorted
record's image (raises before the writer exists if it fails), construct the
`cv2.VideoWriter` (`writerOpens` says whether it opens; if not, a
`RuntimeError` is raised and the writer is never released), write every frame
in sorted order (a failure mid-loop propagates without releasing the writer),
then release. -/
def assembleSorted (resolver : String → Bool) (writerOpens : Bool)
    (newArray : List JVal) : AssembleTrace :=
  match newArray with
  | [] => ⟨false, false, [], some .indexEmpty⟩
  | first :: _ =>
    match pyItem1 first with
    | none => ⟨false, false, [], some .itemIndex⟩
    | some ref =>
      match getPil resolver ref with
      | none => ⟨false, false, [], some .imageNotFound⟩
      | some _ =>
        if writerOpens then
          match writeFrames resolver newArray [] with
          | (frames, none) => ⟨true, true, frames, none⟩
          | (frames, some e) => ⟨true, false, frames, some e⟩
        else ⟨true, false, [], some .writerOpen⟩

/-- `ImagesIndexToVideoInvocation.invoke`:
`new_array = sorted([json.loads(s) for s in self.image_index_collection],
key=lambda x: x[0])`, then `assembleSorted`. -/
def imagesIndexToVideo (resolver : String → Bool) (writerOpens : Bool)
    (records : List String) : AssembleTrace :=
  match records.mapM loads with
  | none => ⟨false, false, [], some .jsonDecode⟩
  | some vals =>
    match sortedRecords vals with
    | none => ⟨false, false, [], some .sortError⟩
    | some newArray => assembleSorted resolver writerOpens newArray

/-! ## Frame records

Claim-level vocabulary: a well-formed frame record is a pair of an index and
an image name, serialized by `imageIndexCollect`; `recordJson` is the value
`json.loads` gives back for it, and `idxLe` is the ascending-index order. -/

def encodeRecord (p : Int × String) : String := imageIndexCollect p.1 p.2

def recordJson (p : Int × String) : JVal := .jarr [.jint p.1, .jstr p.2]

def idxLe (p q : Int × String) : Prop := p.1 ≤ q.1

instance : DecidableRel idxLe := fun p q => Int.decLe p.1 q.1

instance : IsTotal (Int × String) idxLe := ⟨fun a b => Int.le_total a.1 b.1⟩

instance : IsTrans (Int × String) idxLe := ⟨fun _ _ _ h1 h2 => le_trans h1 h2⟩

/-! ## Lemmas: decimal digits -/

theorem toNat_digitChar {d : Nat} (h : d < 10) : (digitChar d).toNat = 48 + d := by
  interval_cases d <;> rfl

theorem isDigitChar_digitChar {d : Nat} (h : d < 10) : isDigitChar (digitChar d) = true := by
  interval_cases d <;> rfl

theorem char_ne_of_toNat_ne {c x : Char} (h : c.toNat ≠ x.toNat) : c ≠ x :=
  fun he => h (by rw [he])

theorem toNat_bounds_of_isDigitChar {c : Char} (h : isDigitChar c = true) :
    48 ≤ c.toNat ∧ c.toNat ≤ 57 := by
  simpa [isDigitChar, Bool.and_eq_true, decide_eq_true_eq] using h

theorem natRevCharsAux_fuel : ∀ (fuel n : Nat), n < fuel →
    natRevCharsAux fuel n = natRevCharsAux (n + 1) n := by
  intro fuel
  induction fuel using Nat.strong_induction_on with
  | _ fuel ih =>
    intro n h
    obtain ⟨f, rfl⟩ : ∃ f, fuel = f + 1 := ⟨fuel - 1, by omega⟩
    by_cases h10 : n < 10
    · simp [natRevCharsAux, h10]
    · have hdiv : n / 10 < n := Nat.div_lt_self (by omega) (by omega)
      rw [natRevCharsAux, if_neg h10]
      conv_rhs => rw [natRevCharsAux, if_neg h10]
      rw [ih f (by omega) (n / 10) (by omega), ih n (by omega) (n / 10) hdiv]

theorem natChars_eq (n : Nat) :
    natChars n = if n < 10 then [digitChar n] else natChars (n / 10) ++ [digitChar (n % 10)] := by
  by_cases h10 : n < 10
  · simp [natChars, natRevCharsAux, h10]
  · have hdiv : n / 10 < n := Nat.div_lt_self (by omega) (by omega)
    rw [if_neg h10, natChars, natRevCharsAux, if_neg h10, natRevCharsAux_fuel n (n / 10) hdiv,
      List.reverse_cons, natChars]

theorem natChars_ne_nil (n : Nat) : natChars n ≠ [] := by
  rw [natChars_eq]
  split <;> simp

theorem isDigitChar_of_mem_natChars {n : Nat} {c : Char} (h : c ∈ natChars n) :
    isDigitChar c = true := by
  induction n using Nat.strong_induction_on with
  | _ n ih =>
    rw [natChars_eq] at h
    by_cases h10 : n < 10
    · rw [if_pos h10] at h
      simp only [List.mem_singleton] at h
      exact h ▸ isDigitChar_digitChar h10
    · rw [if_neg h10] at h
      rcases List.mem_append.1 h with h' | h'
      · exact ih (n / 10) (Nat.div_lt_self (by omega) (by omega)) h'
      · simp only [List.mem_singleton] at h'
        exact h' ▸ isDigitChar_digitChar (Nat.mod_lt _ (by omega))

theorem digitsVal_append_singleton (l : List Char) (c : Char) :
    digitsVal (l ++ [c]) = digitsVal l * 10 + (c.toNat - 48) := by
  simp [digitsVal, List.foldl_append]

theorem digitsVal_natChars (n : Nat) : digitsVal (natChars n) = n := by
  induction n using Nat.strong_induction_on with
  | _ n ih =>
    rw [natChars_eq]
    by_cases h10 : n < 10
    · rw [if_pos h10]
      simp [digitsVal, toNat_digitChar h10]
    · rw [if_neg h10, digitsVal_append_singleton,
        ih (n / 10) (Nat.div_lt_self (by omega) (by omega)),
        toNat_digitChar (Nat.mod_lt _ (by omega))]
      omega

theorem natChars_head_zero {n : Nat} (h : (natChars n).head? = some '0') : natChars n = ['0'] := by
  induction n using Nat.strong_induction_on with
  | _ n ih =>
    rw [natChars_eq] at h ⊢
    by_cases h10 : n < 10
    · rw [if_pos h10] at h ⊢
      simp only [List.head?_cons, Option.some.injEq] at h
      rw [h]
    · rw [if_neg h10] at h ⊢
      exfalso
      rw [List.head?_append, Option.or_eq_some] at h
      rcases h with h' | ⟨hnil, _⟩
      · have := ih (n / 10) (Nat.div_lt_self (by omega) (by omega)) h'
        have hv := digitsVal_natChars (n / 10)
        rw [this] at hv
        have : digitsVal (['0'] : List Char) = 0 := rfl
        omega
      · exact (natChars_ne_nil (n / 10)) (List.head?_eq_none_iff.1 hnil)

theorem takeDigits_append {ds : List Char} (c0 : Char) (rest : List Char)
    (h : ∀ c ∈ ds, isDigitChar c = true) (h0 : isDigitChar c0 = false) :
    takeDigits (ds ++ c0 :: rest) = (ds, c0 :: rest) := by
  induction ds with
  | nil => simp [takeDigits, h0]
  | cons d ds ih =>
    have hd := h d (List.mem_cons_self d ds)
    simp only [List.cons_append, takeDigits, hd, if_true, List.append_eq]
    rw [ih fun c hc => h c (List.mem_cons_of_mem d hc)]

theorem parseNumAfterSign_natChars (neg : Bool) (n : Nat) (r : List Char) :
    parseNumAfterSign neg (natChars n ++ ',' :: r) = some (.jint (applySign neg n), ',' :: r) := by
  rw [parseNumAfterSign]
  rw [takeDigits_append ',' r (fun c hc => isDigitChar_of_mem_natChars hc) (by rfl)]
  simp only [natChars_ne_nil n, if_false]
  rw [if_neg, digitsVal_natChars, parseNumTail]
  · rw [if_neg (by decide), if_neg (by simp)]
  · rintro ⟨hz, hlen⟩
    exact hlen (by rw [natChars_head_zero hz]; rfl)

theorem parseNumber_intChars (i : Int) (r : List Char) :
    parseNumber (intChars i ++ ',' :: r) = some (.jint i, ',' :: r) := by
  by_cases hneg : i < 0
  · rw [intChars, if_pos hneg, List.cons_append, parseNumber, if_pos rfl,
      parseNumAfterSign_natChars]
    have : applySign true i.natAbs = i := by
      simp [applySign, Int.natCast_natAbs, abs_of_neg hneg]
    rw [this]
  · rw [intChars, if_neg hneg]
    obtain ⟨d, ds, hds⟩ := List.exists_cons_of_ne_nil (natChars_ne_nil i.natAbs)
    have hd : isDigitChar d = true := isDigitChar_of_mem_natChars (by rw [hds]; exact List.mem_cons_self d ds)
    have hd48 := toNat_bounds_of_isDigitChar hd
    rw [hds, List.cons_append, parseNumber,
      if_neg (char_ne_of_toNat_ne (show d.toNat ≠ '-'.toNat by simp; omega)),
      ← List.cons_append, ← hds, parseNumAfterSign_natChars]
    have : applySign false i.natAbs = i := by
      simp [applySign, Int.natCast_natAbs, abs_of_nonneg (not_lt.1 hneg)]
    rw [this]

/-! ## Lemmas: string escaping round-trip -/

theorem hexDigitVal_hexDigitChar {d : Nat} (h : d < 16) : hexDigitVal (hexDigitChar d) = some d := by
  interval_cases d <;> rfl

theorem hex4Val_comps {n : Nat} (h : n < 65536) :
    hex4Val (hexDigitChar (n / 4096 % 16)) (hexDigitChar (n / 256 % 16))
      (hexDigitChar (n / 16 % 16)) (hexDigitChar (n % 16)) = some n := by
  have h16 : 0 < 16 := by omega
  rw [hex4Val, hexDigitVal_hexDigitChar (Nat.mod_lt _ h16),
    hexDigitVal_hexDigitChar (Nat.mod_lt _ h16), hexDigitVal_hexDigitChar (Nat.mod_lt _ h16),
    hexDigitVal_hexDigitChar (Nat.mod_lt _ h16)]
  show some _ = some n
  exact congrArg some (by omega)

theorem parseUEscape_single (a b c d : Char) (v : Nat) (rest : List Char)
    (hv : hex4Val a b c d = some v) (h1 : ¬(55296 ≤ v ∧ v ≤ 56319))
    (h2 : ¬(56320 ≤ v ∧ v ≤ 57343)) :
    parseUEscape (a :: b :: c :: d :: rest) = some (Char.ofNat v, rest) := by
  simp [parseUEscape, hv, h1, h2]

theorem parseUEscape_pair (a b c d a2 b2 c2 d2 : Char) (v w : Nat) (rest : List Char)
    (hv : hex4Val a b c d = some v) (hw : hex4Val a2 b2 c2 d2 = some w)
    (h1 : 55296 ≤ v ∧ v ≤ 56319) (h2 : 56320 ≤ w ∧ w ≤ 57343) :
    parseUEscape (a :: b :: c :: d :: '\\' :: 'u' :: a2 :: b2 :: c2 :: d2 :: rest) =
      some (Char.ofNat (65536 + (v - 55296) * 1024 + (w - 56320)), rest) := by
  simp [parseUEscape, hv, hw, h1, h2]

theorem parseJStrBody_escapeChar (fuel : Nat) (c : Char) (rest : List Char) :
    parseJStrBody (fuel + 1) (escapeChar c ++ rest) =
      (parseJStrBody fuel rest).map fun p => (c :: p.1, p.2) := by
  have hvalid : c.toNat < 55296 ∨ (57343 < c.toNat ∧ c.toNat < 1114112) := c.valid
  rw [escapeChar]
  by_cases h1 : c = '"'
  · rw [if_pos h1, List.cons_append, List.cons_append, List.nil_append, parseJStrBody.eq_def]
    subst h1
    simp [unescapeSimple]
  rw [if_neg h1]
  by_cases h2 : c = '\\'
  · rw [if_pos h2, List.cons_append, List.cons_append, List.nil_append, parseJStrBody.eq_def]
    subst h2
    simp [unescapeSimple]
  rw [if_neg h2]
  by_cases h3 : c.toNat = 10
  · rw [if_pos h3, List.cons_append, List.cons_append, List.nil_append, parseJStrBody.eq_def]
    have hc : c = '\n' := by
      have h := Char.ofNat_toNat c
      rw [h3] at h
      exact h.symm
    subst hc
    simp [unescapeSimple]
  rw [if_neg h3]
  by_cases h4 : c.toNat = 13
  · rw [if_pos h4, List.cons_append, List.cons_append, List.nil_append, parseJStrBody.eq_def]
    have hc : c = '\r' := by
      have h := Char.ofNat_toNat c
      rw [h4] at h
      exact h.symm
    subst hc
    simp [unescapeSimple]
  rw [if_neg h4]
  by_cases h5 : c.toNat = 9
  · rw [if_pos h5, List.cons_append, List.cons_append, List.nil_append, parseJStrBody.eq_def]
    have hc : c = '\t' := by
      have h := Char.ofNat_toNat c
      rw [h5] at h
      exact h.symm
    subst hc
    simp [unescapeSimple]
  rw [if_neg h5]
  by_cases h6 : c.toNat = 8
  · rw [if_pos h6, List.cons_append, List.cons_append, List.nil_append, parseJStrBody.eq_def]
    have hc : c = Char.ofNat 8 := by
      have h := Char.ofNat_toNat c
      rw [h6] at h
      exact h.symm
    subst hc
    simp [unescapeSimple]
  rw [if_neg h6]
  by_cases h7 : c.toNat = 12
  · rw [if_pos h7, List.cons_append, List.cons_append, List.nil_append, parseJStrBody.eq_def]
    have hc : c = Char.ofNat 12 := by
      have h := Char.ofNat_toNat c
      rw [h7] at h
      exact h.symm
    subst hc
    simp [unescapeSimple]
  rw [if_neg h7]
  by_cases h8 : c.toNat < 32
  · rw [if_pos h8]
    simp only [hex4, List.cons_append, List.nil_append]
    rw [parseJStrBody.eq_def]
    simp [parseUEscape_single _ _ _ _ c.toNat rest (hex4Val_comps (by omega)) (by omega)
      (by omega), Char.ofNat_toNat]
  rw [if_neg h8]
  by_cases h9 : c.toNat < 127
  · rw [if_pos h9]
    simp only [List.cons_append, List.nil_append]
    rw [parseJStrBody.eq_def]
    have h32 : ¬c.toNat < 32 := by omega
    simp [h1, h2, h32]
    try exact fun h27 => absurd h27 h32
  rw [if_neg h9]
  by_cases h10 : c.toNat < 65536
  · rw [if_pos h10]
    simp only [hex4, List.cons_append, List.nil_append]
    rw [parseJStrBody.eq_def]
    simp [parseUEscape_single _ _ _ _ c.toNat rest (hex4Val_comps (by omega)) (by omega)
      (by omega), Char.ofNat_toNat]
  · rw [if_neg h10]
    simp only [hex4, List.cons_append, List.append_assoc, List.nil_append]
    rw [parseJStrBody.eq_def]
    have hX : 65536 + (55296 + (c.toNat - 65536) / 1024 - 55296) * 1024 +
        (56320 + (c.toNat - 65536) % 1024 - 56320) = c.toNat := by omega
    have hX2 : 65536 + (c.toNat - 65536) / 1024 * 1024 + (c.toNat - 65536) % 1024 = c.toNat := by
      omega
    simp [hX2, parseUEscape_pair _ _ _ _ _ _ _ _ (55296 + (c.toNat - 65536) / 1024)
      (56320 + (c.toNat - 65536) % 1024) rest (hex4Val_comps (by omega))
      (hex4Val_comps (by omega)) (by omega) (by omega), hX, Char.ofNat_toNat]

theorem parseJStrBody_escapeList : ∀ (fuel : Nat) (l rest : List Char), l.length < fuel →
    parseJStrBody fuel (l.flatMap escapeChar ++ '"' :: rest) = some (l, rest) := by
  intro fuel l
  induction l generalizing fuel with
  | nil =>
    intro rest h
    obtain ⟨f, rfl⟩ : ∃ f, fuel = f + 1 := ⟨fuel - 1, by omega⟩
    rw [List.flatMap_nil, List.nil_append, parseJStrBody.eq_def]
    simp
  | cons c l ih =>
    intro rest h
    obtain ⟨f, rfl⟩ : ∃ f, fuel = f + 1 := ⟨fuel - 1, by omega⟩
    have hl : l.length < f := by
      simp only [List.length_cons] at h
      omega
    rw [List.flatMap_cons, List.append_assoc, parseJStrBody_escapeChar, ih f rest hl]
    rfl

theorem one_le_length_escapeChar (c : Char) : 1 ≤ (escapeChar c).length := by
  rw [escapeChar]
  repeat' split
  all_goals simp [hex4]

theorem length_le_flatMap_escapeChar (l : List Char) :
    l.length ≤ (l.flatMap escapeChar).length := by
  induction l with
  | nil => simp
  | cons c l ih =>
    rw [List.flatMap_cons, List.length_append]
    have := one_le_length_escapeChar c
    simp only [List.length_cons]
    omega

/-! ## Lemmas: the `loads`/`imageIndexCollect` round-trip -/

theorem skipWs_cons {c : Char} (h : isWsChar c = false) (l : List Char) :
    skipWs (c :: l) = c :: l := by
  rw [skipWs.eq_def]
  simp [h]

theorem isWsChar_eq_false {c : Char}
    (h : c.toNat ≠ 32 ∧ c.toNat ≠ 9 ∧ c.toNat ≠ 10 ∧ c.toNat ≠ 13) : isWsChar c = false := by
  rw [isWsChar]
  simp only [Bool.or_eq_false_iff, decide_eq_false_iff_not]
  exact ⟨⟨⟨char_ne_of_toNat_ne h.1, char_ne_of_toNat_ne h.2.1⟩,
    char_ne_of_toNat_ne h.2.2.1⟩, char_ne_of_toNat_ne h.2.2.2⟩

/-- The first character of `intChars i` is a minus sign or a digit. -/
theorem intChars_head (i : Int) :
    ∃ d l, intChars i = d :: l ∧ (d.toNat = 45 ∨ (48 ≤ d.toNat ∧ d.toNat ≤ 57)) := by
  rw [intChars]
  split
  · exact ⟨'-', natChars i.natAbs, rfl, Or.inl rfl⟩
  · obtain ⟨d, l, hd⟩ := List.exists_cons_of_ne_nil (natChars_ne_nil i.natAbs)
    have hmem : d ∈ natChars i.natAbs := by
      rw [hd]
      exact List.mem_cons_self d l
    exact ⟨d, l, hd, Or.inr (toNat_bounds_of_isDigitChar (isDigitChar_of_mem_natChars hmem))⟩

theorem parseVal_number (fuel : Nat) (c : Char) (rest : List Char)
    (hb : c.toNat = 45 ∨ (48 ≤ c.toNat ∧ c.toNat ≤ 57)) :
    parseVal (fuel + 1) (c :: rest) = parseNumber (c :: rest) := by
  have hws : isWsChar c = false :=
    isWsChar_eq_false ⟨by omega, by omega, by omega, by omega⟩
  have h1 : c ≠ '"' := char_ne_of_toNat_ne (show c.toNat ≠ 34 by omega)
  have h2 : c ≠ '[' := char_ne_of_toNat_ne (show c.toNat ≠ 91 by omega)
  have h3 : c ≠ '{' := char_ne_of_toNat_ne (show c.toNat ≠ 123 by omega)
  have h4 : c ≠ 't' := char_ne_of_toNat_ne (show c.toNat ≠ 116 by omega)
  have h5 : c ≠ 'f' := char_ne_of_toNat_ne (show c.toNat ≠ 102 by omega)
  have h6 : c ≠ 'n' := char_ne_of_toNat_ne (show c.toNat ≠ 110 by omega)
  rw [parseVal.eq_def]
  simp only [skipWs_cons hws]
  rw [if_neg h1, if_neg h2, if_neg h3, if_neg h4, if_neg h5, if_neg h6]

theorem parseVal_strElem (f : Nat) (s : String) :
    parseVal (f + 1) (' ' :: '"' :: (escapeString s ++ '"' :: ']' :: [])) =
      some (.jstr s, ']' :: []) := by
  rw [parseVal.eq_def]
  have hsp : skipWs (' ' :: '"' :: (escapeString s ++ '"' :: ']' :: [])) =
      '"' :: (escapeString s ++ '"' :: ']' :: []) := by
    rw [skipWs.eq_def]
    simp only [show isWsChar ' ' = true from rfl, if_true]
    exact skipWs_cons (show isWsChar '"' = false from rfl) _
  simp [hsp]
  exact ⟨s.data, parseJStrBody_escapeList _ _ (']' :: []) (by
    have h := length_le_flatMap_escapeChar s.data
    simp only [escapeString, List.length_append]
    omega), rfl⟩

theorem parseVal_record (f : Nat) (i : Int) (s : String) :
    parseVal (f + 3) (imageIndexCollect i s).data =
      some (.jarr [.jint i, .jstr s], []) := by
  obtain ⟨d, dl, hd, hb⟩ := intChars_head i
  have hwsd : isWsChar d = false :=
    isWsChar_eq_false ⟨by omega, by omega, by omega, by omega⟩
  have hdata : (imageIndexCollect i s).data =
      '[' :: (intChars i ++ ',' :: ' ' :: '"' :: (escapeString s ++ '"' :: ']' :: [])) := rfl
  rw [hdata, show f + 3 = (f + 2) + 1 from rfl, parseVal.eq_def]
  simp only [skipWs_cons (show isWsChar '[' = false by rfl)]
  rw [if_neg (show ¬('[' : Char) = '"' by decide)]
  simp only [if_true]
  rw [hd, List.cons_append, skipWs_cons hwsd]
  have hne : (d :: (dl ++ ',' :: ' ' :: '"' :: (escapeString s ++ '"' :: ']' :: []))).head? =
      some ']' → False := by
    intro hcon
    simp only [List.head?_cons, Option.some.injEq] at hcon
    exact char_ne_of_toNat_ne (show d.toNat ≠ 93 by omega) hcon
  rw [if_neg hne]
  rw [show f + 2 = (f + 1) + 1 from rfl, parseVal_number (f + 1) d _ hb]
  rw [← List.cons_append, ← hd, parseNumber_intChars]
  show parseArrRest (f + 1 + 1) [JVal.jint i]
      (',' :: ' ' :: '"' :: (escapeString s ++ '"' :: ']' :: [])) =
    some (.jarr [.jint i, .jstr s], [])
  rw [parseArrRest.eq_def]
  simp only [skipWs_cons (show isWsChar ',' = false from rfl), if_true]
  rw [parseVal_strElem]
  show parseArrRest (f + 1) ([JVal.jint i] ++ [JVal.jstr s]) (']' :: []) =
    some (.jarr [.jint i, .jstr s], [])
  rw [parseArrRest.eq_def]
  simp only [skipWs_cons (show isWsChar ']' = false from rfl)]
  rw [if_neg (show ¬(']' : Char) = ',' by decide)]
  simp only [if_true]
  rfl

/-- `json.loads` inverts `json.dumps([index, image_name])`. -/
theorem loads_imageIndexCollect (i : Int) (s : String) :
    loads (imageIndexCollect i s) = some (.jarr [.jint i, .jstr s]) := by
  rw [loads]
  have hlen : 2 ≤ (imageIndexCollect i s).data.length := by
    have hdata : (imageIndexCollect i s).data =
        '[' :: (intChars i ++ ',' :: ' ' :: '"' :: (escapeString s ++ '"' :: ']' :: [])) := rfl
    rw [hdata]
    have h1 : 1 ≤ (intChars i).length := by
      obtain ⟨d, dl, hd, _⟩ := intChars_head i
      rw [hd]
      simp
    simp only [List.length_cons, List.length_append]
    omega
  rw [show (imageIndexCollect i s).data.length + 1 =
      ((imageIndexCollect i s).data.length - 2) + 3 by omega]
  rw [parseVal_record]
  rfl

/-! ## Lemmas: the collation pipeline on well-formed records -/

theorem loads_encodeRecord (p : Int × String) : loads (encodeRecord p) = some (recordJson p) :=
  loads_imageIndexCollect p.1 p.2

theorem mapM_loads_encode (l : List (Int × String)) :
    (l.map encodeRecord).mapM loads = some (l.map recordJson) := by
  induction l with
  | nil => rfl
  | cons p l ih =>
    rw [List.map_cons, List.map_cons, List.mapM_cons, loads_encodeRecord p, ih]
    rfl

theorem keyOf_recordJson (p : Int × String) : keyOf (recordJson p) = some (.jint p.1) := rfl

theorem mapM_keyOf_recordJson (l : List (Int × String)) :
    (l.map recordJson).mapM keyOf = some (l.map fun p => JVal.jint p.1) := by
  induction l with
  | nil => rfl
  | cons p l ih =>
    rw [List.map_cons, List.map_cons, List.mapM_cons, keyOf_recordJson p, ih]
    rfl

theorem pyLt_jint (a b : Int) : pyLt (.jint a) (.jint b) = some (decide (a < b)) := by
  simp [pyLt, numVal, decNumLt]

theorem pairsComparable_map_jint (l : List (Int × String)) :
    pairsComparable (l.map fun p => JVal.jint p.1) = true := by
  induction l with
  | nil => rfl
  | cons p l ih =>
    rw [List.map_cons, pairsComparable, ih, Bool.and_true]
    simp only [List.all_eq_true]
    intro q hq
    obtain ⟨r, _, rfl⟩ := List.mem_map.mp hq
    rw [pyLt_jint]
    rfl

theorem keyLe_recordJson (p q : Int × String) :
    keyLe (recordJson p) (recordJson q) = decide (p.1 ≤ q.1) := by
  simp only [keyLe, keyOf_recordJson, Option.getD_some, pyLt_jint]
  rw [← decide_not, decide_eq_decide]
  exact not_lt

theorem sortedRecords_encode (l : List (Int × String)) :
    sortedRecords (l.map recordJson) = some ((l.insertionSort idxLe).map recordJson) := by
  rw [sortedRecords, mapM_keyOf_recordJson]
  simp only [pairsComparable_map_jint, if_true]
  congr 1
  exact (List.map_insertionSort idxLe _ recordJson l fun a _ b _ => by
    simp [idxLe, keyLe_recordJson]).symm

theorem pyItem1_recordJson (p : Int × String) : pyItem1 (recordJson p) = some (.jstr p.2) := rfl

theorem writeFrames_map_recordJson (s : List (Int × String)) (acc : List String) :
    writeFrames (fun _ => true) (s.map recordJson) acc = (acc.reverse ++ s.map Prod.snd, none) := by
  induction s generalizing acc with
  | nil => simp [writeFrames]
  | cons p s ih => simp [writeFrames, pyItem1_recordJson, getPil, ih]

theorem assembleSorted_encode_cons (p : Int × String) (s : List (Int × String)) :
    assembleSorted (fun _ => true) true ((p :: s).map recordJson) =
      ⟨true, true, (p :: s).map Prod.snd, none⟩ := by
  rw [List.map_cons, assembleSorted, pyItem1_recordJson]
  show (match writeFrames (fun _ => true) (recordJson p :: s.map recordJson) [] with
    | (frames, none) => AssembleTrace.mk true true frames none
    | (frames, some e) => AssembleTrace.mk true false frames (some e)) = _
  rw [← List.map_cons, writeFrames_map_recordJson]
  rfl

/-- The whole node on well-formed records with every image resolvable: it
parses the records back, stable-sorts them by index, and writes exactly the
second components in sorted order. -/
theorem imagesIndexToVideo_encode (l : List (Int × String)) :
    imagesIndexToVideo (fun _ => true) true (l.map encodeRecord) =
      assembleSorted (fun _ => true) true ((l.insertionSort idxLe).map recordJson) := by
  rw [imagesIndexToVideo, mapM_loads_encode]
  show (match sortedRecords (l.map recordJson) with
    | none => AssembleTrace.mk false false [] (some .sortError)
    | some newArray => assembleSorted (fun _ => true) true newArray) = _
  rw [sortedRecords_encode]

/-- Same, but for an arbitrary resolver and writer state: the trace is a
function of the sorted record list alone. -/
theorem imagesIndexToVideo_encode_general (resolver : String → Bool) (writerOpens : Bool)
    (l : List (Int × String)) :
    imagesIndexToVideo resolver writerOpens (l.map encodeRecord) =
      assembleSorted resolver writerOpens ((l.insertionSort idxLe).map recordJson) := by
  rw [imagesIndexToVideo, mapM_loads_encode]
  show (match sortedRecords (l.map recordJson) with
    | none => AssembleTrace.mk false false [] (some .sortError)
    | some newArray => assembleSorted resolver writerOpens newArray) = _
  rw [sortedRecords_encode]

/-! ## Lemmas: determinism and stability of the sort -/

theorem insertionSort_idxLe_eq {l1 l2 : List (Int × String)} (hp : l1.Perm l2)
    (hd : (l1.map Prod.fst).Nodup) :
    l1.insertionSort idxLe = l2.insertionSort idxLe := by
  haveI : IsAntisymm (Int × String) (fun a b : Int × String => a.1 < b.1) :=
    ⟨fun a b h1 h2 => absurd h2 (not_lt.2 (le_of_lt h1))⟩
  have hperm : (l1.insertionSort idxLe).Perm (l2.insertionSort idxLe) :=
    (List.perm_insertionSort idxLe l1).trans (hp.trans (List.perm_insertionSort idxLe l2).symm)
  have hd1 : ((l1.insertionSort idxLe).map Prod.fst).Nodup :=
    (((List.perm_insertionSort idxLe l1).map Prod.fst).nodup_iff).mpr hd
  have hd2 : ((l2.insertionSort idxLe).map Prod.fst).Nodup :=
    (((List.perm_insertionSort idxLe l2).map Prod.fst).nodup_iff).mpr ((hp.map Prod.fst).nodup_iff.mp hd)
  have hst1 : (l1.insertionSort idxLe).Pairwise (fun a b : Int × String => a.1 < b.1) :=
    ((List.sorted_insertionSort idxLe l1).and (List.pairwise_map.mp hd1)).imp
      fun h => lt_of_le_of_ne h.1 h.2
  have hst2 : (l2.insertionSort idxLe).Pairwise (fun a b : Int × String => a.1 < b.1) :=
    ((List.sorted_insertionSort idxLe l2).and (List.pairwise_map.mp hd2)).imp
      fun h => lt_of_le_of_ne h.1 h.2
  exact List.eq_of_perm_of_sorted hperm hst1 hst2

theorem insertionSort_filter_idx (l : List (Int × String)) (k : Int) :
    (l.insertionSort idxLe).filter (fun p => decide (p.1 = k)) =
      l.filter (fun p => decide (p.1 = k)) := by
  have hsub : List.Sublist (l.filter fun p => decide (p.1 = k)) (l.insertionSort idxLe) := by
    apply List.sublist_insertionSort
    · apply List.pairwise_of_forall_mem_list
      intro a ha b hb
      have ha' := (List.mem_filter.mp ha).2
      have hb' := (List.mem_filter.mp hb).2
      simp only [decide_eq_true_eq] at ha' hb'
      show a.1 ≤ b.1
      rw [ha', hb']
    · exact List.filter_sublist l
  have hself : (l.filter (fun p => decide (p.1 = k))).filter (fun p => decide (p.1 = k)) =
      l.filter (fun p => decide (p.1 = k)) :=
    List.filter_eq_self.mpr fun a ha => (List.mem_filter.mp ha).2
  have hAB : List.Sublist (l.filter fun p => decide (p.1 = k))
      ((l.insertionSort idxLe).filter fun p => decide (p.1 = k)) := by
    have h := hsub.filter (fun p => decide (p.1 = k))
    rwa [hself] at h
  have hperm : ((l.insertionSort idxLe).filter (fun p => decide (p.1 = k))).Perm
      (l.filter (fun p => decide (p.1 = k))) :=
    (List.perm_insertionSort idxLe l).filter _
  exact (hAB.eq_of_length hperm.length_eq.symm).symm

/-! ## Lemmas: release discipline -/

theorem framesWritten_assembleSorted_encode (s : List (Int × String)) :
    (assembleSorted (fun _ => true) true (s.map recordJson)).framesWritten = s.map Prod.snd := by
  cases s with
  | nil => rfl
  | cons p s => rw [assembleSorted_encode_cons]

theorem assembleSorted_error_or_released (resolver : String → Bool) (w : Bool)
    (newArray : List JVal) :
    (assembleSorted resolver w newArray).error ≠ none ∨
      (assembleSorted resolver w newArray).writerReleased = true := by
  cases newArray with
  | nil => simp [assembleSorted]
  | cons first rest =>
    cases h1 : pyItem1 first with
    | none => simp [assembleSorted, h1]
    | some ref =>
      cases h2 : getPil resolver ref with
      | none => simp [assembleSorted, h1, h2]
      | some name =>
        cases w with
        | false => simp [assembleSorted, h1, h2]
        | true =>
          rcases h3 : writeFrames resolver (first :: rest) [] with ⟨frames, err⟩
          cases err with
          | none => simp [assembleSorted, h1, h2, h3]
          | some e => simp [assembleSorted, h1, h2, h3]

theorem imagesIndexToVideo_error_or_released (resolver : String → Bool) (w : Bool)
    (records : List String) :
    (imagesIndexToVideo resolver w records).error ≠ none ∨
      (imagesIndexToVideo resolver w records).writerReleased = true := by
  cases hm : records.mapM loads with
  | none =>
    rw [imagesIndexToVideo, hm]
    simp
  | some vals =>
    rw [imagesIndexToVideo, hm]
    show (match sortedRecords vals with
      | none => AssembleTrace.mk false false [] (some .sortError)
      | some newArray => assembleSorted resolver w newArray).error ≠ none ∨
      (match sortedRecords vals with
        | none => AssembleTrace.mk false false [] (some .sortError)
        | some newArray => assembleSorted resolver w newArray).writerReleased = true
    cases hs : sortedRecords vals with
    | none => simp
    | some newArray => exact assembleSorted_error_or_released resolver w newArray

theorem imagesIndexToVideo_released (resolver : String → Bool) (w : Bool)
    (records : List String) (h : (imagesIndexToVideo resolver w records).error = none) :
    (imagesIndexToVideo resolver w records).writerReleased = true :=
  (imagesIndexToVideo_error_or_released resolver w records).resolve_left fun hne => hne h

theorem mapM_eq_none {α β : Type} (f : α → Option β) {l : List α}
    (h : ∃ a ∈ l, f a = none) : l.mapM f = none := by
  induction l with
  | nil =>
    obtain ⟨r, hr, _⟩ := h
    exact absurd hr (List.not_mem_nil r)
  | cons a l ih =>
    rw [List.mapM_cons]
    obtain ⟨r, hr, hnone⟩ := h
    rcases List.mem_cons.mp hr with rfl | hr'
    · rw [hnone]
      rfl
    · cases hl : f a with
      | none => rfl
      | some v =>
        show (mapM f l >>= fun bs => pure (v :: bs)) = none
        rw [ih ⟨r, hr', hnone⟩]
        rfl

/-! ## The claims -/

/-- Claim C1: on well-formed frame records with pairwise distinct indices,
Assemble produces the same trace - in particular the same output frame
order - for every permutation of the records: the order is a pure function
of the index values, not of arrival order. -/
theorem C1_collation_independent_of_arrival_order (resolver : String → Bool)
    (writerOpens : Bool) (l1 l2 : List (Int × String)) (hperm : l1.Perm l2)
    (hnodup : (l1.map Prod.fst).Nodup) :
    imagesIndexToVideo resolver writerOpens (l1.map encodeRecord) =
      imagesIndexToVideo resolver writerOpens (l2.map encodeRecord) := by
  rw [imagesIndexToVideo_encode_general, imagesIndexToVideo_encode_general,
    insertionSort_idxLe_eq hperm hnodup]

/-- Witness for C1 at a concrete permutation pair. -/
theorem C1_witness :
    ([((1 : Int), "b"), (0, "a")].Perm [((0 : Int), "a"), (1, "b")]) ∧
    (([((1 : Int), "b"), (0, "a")].map Prod.fst).Nodup) ∧
    imagesIndexToVideo (fun _ => true) true ([((1 : Int), "b"), (0, "a")].map encodeRecord) =
      imagesIndexToVideo (fun _ => true) true ([((0 : Int), "a"), (1, "b")].map encodeRecord) :=
  ⟨by decide, by decide,
    C1_collation_independent_of_arrival_order (fun _ => true) true _ _ (by decide) (by decide)⟩

/-- Claim C2: collation sorts well-formed records ascending by index with a
stable sort: the frames written are the image names in stable-sorted order,
the sorted record list is ascending by index, and records with equal index
keep their original relative input order. -/
theorem C2_stable_sort_by_index (l : List (Int × String)) :
    (imagesIndexToVideo (fun _ => true) true (l.map encodeRecord)).framesWritten =
      (l.insertionSort idxLe).map Prod.snd ∧
    (l.insertionSort idxLe).Pairwise idxLe ∧
    ∀ k : Int, (l.insertionSort idxLe).filter (fun p => decide (p.1 = k)) =
      l.filter (fun p => decide (p.1 = k)) := by
  refine ⟨?_, List.sorted_insertionSort idxLe l, fun k => insertionSort_filter_idx l k⟩
  rw [imagesIndexToVideo_encode]
  exact framesWritten_assembleSorted_encode _

/-- Claim C3: Encode Index Record followed by JSON parsing (step 1 of
Assemble) yields back exactly the original (index, image_reference) pair. -/
theorem C3_encode_parse_roundtrip (index : Int) (imageName : String) :
    loads (imageIndexCollect index imageName) =
      some (.jarr [.jint index, .jstr imageName]) :=
  loads_imageIndexCollect index imageName

/-- Counterexample to claim C4: Count Frames and Get Frame Rate do not raise
on an unopenable input video; each returns the capture's silent default 0. -/
theorem C4_cex_silent_default :
    getTotalFrames none = (.ok 0, ⟨false, true⟩) ∧
    getSourceFrameRate none = (.ok 0, ⟨false, true⟩) :=
  ⟨rfl, rfl⟩

/-- Claim C4 (amended): Extract Frame raises SourceOpenError when the input
video cannot be opened, but Count Frames and Get Frame Rate never raise -
with an unopenable input they return the capture's default metadata 0. -/
theorem C4_amended_open_failure_behaviour :
    (∀ n : Nat, loadVideoFrame none n = (.error .sourceOpen, ⟨false, true⟩)) ∧
    getTotalFrames none = (.ok 0, ⟨false, true⟩) ∧
    getSourceFrameRate none = (.ok 0, ⟨false, true⟩) :=
  ⟨fun _ => rfl, rfl, rfl⟩

/-- Counterexample to claim C5: a resolve failure during the write loop (the
second image is unknown) raises with the writer created but never released. -/
theorem C5_cex_writer_leak :
    imagesIndexToVideo (fun s => decide (s = "a")) true
        [imageIndexCollect 0 "a", imageIndexCollect 1 "b"] =
      ⟨true, false, ["a"], some .imageNotFound⟩ := rfl

/-- Claim C5 (amended): the three capture-based operations release the
capture on every exit path; Assemble releases its writer whenever it returns
without error, but an error raised inside the write loop propagates with the
writer still open. -/
theorem C5_amended_release_discipline :
    (∀ (vid : Option Video) (n : Nat), (loadVideoFrame vid n).2.released = true) ∧
    (∀ vid : Option Video, (getTotalFrames vid).2.released = true) ∧
    (∀ vid : Option Video, (getSourceFrameRate vid).2.released = true) ∧
    ∀ (resolver : String → Bool) (w : Bool) (records : List String),
      (imagesIndexToVideo resolver w records).error = none →
        (imagesIndexToVideo resolver w records).writerReleased = true := by
  refine ⟨fun vid n => ?_, fun vid => ?_, fun vid => ?_, imagesIndexToVideo_released⟩
  · cases vid with
    | none => rfl
    | some v =>
      cases h : v.frames[n - 1]? <;> simp [loadVideoFrame, h]
  · cases vid <;> rfl
  · cases vid <;> rfl

/-- Witness for C5 (amended) at concrete inputs. -/
theorem C5_amended_witness :
    (loadVideoFrame (some ⟨["f0"], 1, 30⟩) 5).2.released = true ∧
    (imagesIndexToVideo (fun _ => true) true [imageIndexCollect 0 "a"]).error = none ∧
    (imagesIndexToVideo (fun _ => true) true [imageIndexCollect 0 "a"]).writerReleased = true :=
  ⟨C5_amended_release_discipline.1 (some ⟨["f0"], 1, 30⟩) 5, rfl,
    C5_amended_release_discipline.2.2.2 (fun _ => true) true [imageIndexCollect 0 "a"] rfl⟩

/-- Counterexample to claim C6: a record that is valid JSON but not a
2-element [int, string] array - here a 3-element array - does not abort the
collation with a parse error: the video is written as if the extra element
were absent. -/
theorem C6_cex_extra_element_accepted :
    imagesIndexToVideo (fun _ => true) true ["[0, \"a\", 0]", "[1, \"b\"]"] =
      ⟨true, true, ["a", "b"], none⟩ := rfl

/-- Claim C6 (amended): if any record is not valid JSON the whole collation
aborts with the parse error before anything is sorted, resolved or written;
but a record that is valid JSON yet not a 2-element [int, string] array is
not necessarily rejected (extra array elements are ignored). -/
theorem C6_amended_invalid_json_aborts (resolver : String → Bool) (w : Bool)
    (records : List String) (h : ∃ r ∈ records, loads r = none) :
    imagesIndexToVideo resolver w records = ⟨false, false, [], some .jsonDecode⟩ := by
  rw [imagesIndexToVideo, mapM_eq_none loads h]

/-- Witness for C6 (amended) at a concrete malformed record. -/
theorem C6_amended_witness :
    (∃ r ∈ (["["] : List String), loads r = none) ∧
    imagesIndexToVideo (fun _ => true) true ["["] = ⟨false, false, [], some .jsonDecode⟩ :=
  ⟨⟨"[", List.mem_cons_self _ _, rfl⟩,
    C6_amended_invalid_json_aborts (fun _ => true) true ["["]
      ⟨"[", List.mem_cons_self _ _, rfl⟩⟩

/-- Claim C7: Assemble on an empty records collection fails fast - the
IndexError from new_array[0] is raised before any VideoWriter is
constructed, and no frame is written. -/
theorem C7_empty_records_fail_fast (resolver : String → Bool) (w : Bool) :
    imagesIndexToVideo resolver w [] = ⟨false, false, [], some .indexEmpty⟩ := rfl

/-- Claim C8: requesting frame number 1 of an openable video seeks to
position 0 and returns the first decodable frame; requesting a frame number
beyond the video's length raises FrameReadError instead of returning an
image. -/
theorem C8_frame_number_boundaries (v : Video) :
    (∀ f rest, v.frames = f :: rest → loadVideoFrame (some v) 1 = (.ok f, ⟨true, true⟩)) ∧
    ∀ n : Nat, v.frames.length < n →
      loadVideoFrame (some v) n = (.error .frameRead, ⟨true, true⟩) := by
  constructor
  · intro f rest hf
    simp [loadVideoFrame, hf]
  · intro n hn
    have h : v.frames[n - 1]? = none := by
      rw [List.getElem?_eq_none]
      omega
    simp [loadVideoFrame, h]

/-- Witness for C8 at a concrete two-frame video. -/
theorem C8_witness :
    loadVideoFrame (some ⟨["f0", "f1"], 2, 30⟩) 1 = (.ok "f0", ⟨true, true⟩) ∧
    loadVideoFrame (some ⟨["f0", "f1"], 2, 30⟩) 3 = (.error .frameRead, ⟨true, true⟩) :=
  ⟨(C8_frame_number_boundaries _).1 "f0" ["f1"] rfl,
    (C8_frame_number_boundaries _).2 3 (by decide)⟩

/-- Claim C9: the record collection ["[2,\"b\"]", "[0,\"a\"]", "[1,\"c\"]"]
collates to frame order a, c, b (ascending by index 0, 1, 2). -/
theorem C9_concrete_scenario :
    imagesIndexToVideo (fun _ => true) true ["[2,\"b\"]", "[0,\"a\"]", "[1,\"c\"]"] =
      ⟨true, true, ["a", "c", "b"], none⟩ := rfl

/-- Claim C10: the first sorted record's image is resolved before the
VideoWriter is constructed: whenever that resolution fails, the invocation
raises with no writer created (so the output file is neither created nor
overwritten) and no frame written. -/
theorem C10_first_resolve_before_writer (resolver : String → Bool) (w : Bool)
    (records : List String) (vals : List JVal) (first : JVal) (rest : List JVal)
    (ref : JVal) (h1 : records.mapM loads = some vals)
    (h2 : sortedRecords vals = some (first :: rest))
    (h3 : pyItem1 first = some ref) (h4 : getPil resolver ref = none) :
    imagesIndexToVideo resolver w records = ⟨false, false, [], some .imageNotFound⟩ := by
  simp only [imagesIndexToVideo, h1, h2, assembleSorted, h3, h4]

/-- Witness for C10 at a concrete unresolvable record. -/
theorem C10_witness :
    imagesIndexToVideo (fun _ => false) true [imageIndexCollect 0 "a"] =
      ⟨false, false, [], some .imageNotFound⟩ :=
  C10_first_resolve_before_writer (fun _ => false) true [imageIndexCollect 0 "a"]
    [recordJson (0, "a")] (recordJson (0, "a")) [] (.jstr "a") rfl rfl rfl rfl

end VideoFrameProvider
